import Mathlib

set_option maxRecDepth 4000

/-!
Shallow embedding of the Tom Basso coin-flip backtest scripts
(`tom_basso_simplified_with_trailing_stop.py`,
`tom_basso_simplified_with_plot.py`, `tom_basso_simplified_v2.py`).

Python floats are modeled as exact rationals (ℚ).  The global numpy
random source consumed by `total_signal` (one `np.random.choice([1,2])`
draw per call) is modeled as an explicit stream `sigs : ℕ → ℕ`, the
k-th draw of the process-wide generator.  Pandas NaN is modeled by
`Option ℚ` in the indicator pipeline; `df.dropna` keeps exactly the
rows whose ATR is defined (ATR is the only column that can be NaN).
-/

/-- One OHLC bar.  The scripts' computations use only High, Low and
Close; the timestamp and Open columns feed printing/plotting only and
are omitted. -/
structure Bar where
  high : ℚ
  low : ℚ
  close : ℚ
deriving DecidableEq

/-- True range of bar `b` given the previous bar's close, as in
`add_atr`: `max(high-low, |high-prevClose|, |low-prevClose|)`. -/
def trueRangeVal (prev b : Bar) : ℚ :=
  max (b.high - b.low) (max |b.high - prev.close| |b.low - prev.close|)

/-- Tail of the true-range column: one defined entry per bar after the
first. -/
def trAux (prev : Bar) : List Bar → List (Option ℚ)
  | [] => []
  | b :: rest => some (trueRangeVal prev b) :: trAux b rest

/-- The `tr` column of `add_atr`.  For row 0 `Close.shift()` is NaN and
`np.maximum` propagates NaN, so the first entry is undefined. -/
def trueRanges : List Bar → List (Option ℚ)
  | [] => []
  | b :: rest => none :: trAux b rest

/-- `Series.rolling(window=L).mean()`: entry `i` is the mean of entries
`i-L+1 .. i`, defined only when `i+1 ≥ L` and the whole window is
defined (pandas' default `min_periods` equals the window size, so any
NaN in the window yields NaN). -/
def rollingMean (L : ℕ) (xs : List (Option ℚ)) : List (Option ℚ) :=
  (List.range xs.length).map (fun i =>
    if i + 1 < L then none
    else
      if ((xs.drop (i + 1 - L)).take L).all (fun o => o.isSome) then
        some (((((xs.drop (i + 1 - L)).take L)).filterMap id).sum / (L : ℚ))
      else none)

/-- `add_atr(df, length)`: pair every bar with its ATR entry. -/
def add_atr (L : ℕ) (bars : List Bar) : List (Bar × Option ℚ) :=
  bars.zip (rollingMean L (trueRanges bars))

/-- `total_signal(df, current_candle)` ignores both arguments and
returns the next draw of the global numpy generator
(`np.random.choice([1, 2])`); `sigs k` is that k-th draw. -/
def total_signal (sigs : ℕ → ℕ) (k : ℕ) : ℕ :=
  sigs k

/-- One row of the prepared dataframe: bar, ATR entry and the
`TotalSignal` column. -/
structure Row where
  bar : Bar
  atr : Option ℚ
  signal : ℕ
deriving DecidableEq

/-- `add_total_signal`, unrolled: row `i` (counting from `k`) receives
draw `sigs i` — the list comprehension calls `total_signal` once per
row of the frame, defined-ATR or not. -/
def add_total_signal_from (sigs : ℕ → ℕ) (k : ℕ) :
    List (Bar × Option ℚ) → List Row
  | [] => []
  | p :: rest => Row.mk p.1 p.2 (total_signal sigs k) ::
      add_total_signal_from sigs (k + 1) rest

/-- `add_total_signal(df)`: draw one signal for every row of the frame
(this runs before `dropna` in all three scripts). -/
def add_total_signal (sigs : ℕ → ℕ) (rows : List (Bar × Option ℚ)) :
    List Row :=
  add_total_signal_from sigs 0 rows

/-- `df.dropna()`: keep the rows whose ATR is defined (the only
possibly-NaN column of the prepared frame). -/
def dropna (rows : List Row) : List Row :=
  rows.filter (fun r => r.atr.isSome)

/-- One engine-input bar: the three columns the backtest loop reads
(`Close`, `ATR`, `TotalSignal`). -/
structure EBar where
  close : ℚ
  atr : ℚ
  signal : ℕ
deriving DecidableEq

/-- Project the prepared rows onto the columns the engine reads,
dropping rows with undefined ATR. -/
def engineInput (rows : List Row) : List EBar :=
  rows.filterMap (fun r => r.atr.map (fun a => EBar.mk r.bar.close a r.signal))

/-- Mutable loop state of `run_tom_basso_coin_toss`:
`equity, position, entry_price, trail_stop, trades`. -/
structure EngineState where
  equity : ℚ
  position : ℚ
  entry_price : ℚ
  trail_stop : ℚ
  trades : List ℚ
deriving DecidableEq

/-- State at the top of the loop: equity = initial capital, flat
position, empty trade log. -/
def initState (initial_capital : ℚ) : EngineState :=
  EngineState.mk initial_capital 0 0 0 []

/-- Entry/reversal section of the loop body (`if signal == 2 and
position <= 0: ... elif signal == 1 and position >= 0: ...`):
`risk_amount = risk_pct * equity`, `stop_distance = atr_mult * atr`,
`position_size = risk_amount / stop_distance`.  There is no guard on
`stop_distance`: the division is written unconditionally. -/
def entryStep (risk_pct atr_mult : ℚ) (s : EngineState) (b : EBar) :
    EngineState :=
  if b.signal = 2 ∧ s.position ≤ 0 then
    { s with position := risk_pct * s.equity / (atr_mult * b.atr),
             entry_price := b.close,
             trail_stop := b.close - atr_mult * b.atr }
  else if b.signal = 1 ∧ 0 ≤ s.position then
    { s with position := -(risk_pct * s.equity / (atr_mult * b.atr)),
             entry_price := b.close,
             trail_stop := b.close + atr_mult * b.atr }
  else s

/-- Trailing-stop section of the loop body (`if position > 0: ... elif
position < 0: ...`): ratchet the stop from the current close, then
close the position when the close crosses the ratcheted stop, booking
`pnl = position * (price - entry_price)` into equity and the trade
log. -/
def trailStep (atr_mult : ℚ) (s : EngineState) (b : EBar) : EngineState :=
  if 0 < s.position then
    if b.close ≤ max s.trail_stop (b.close - atr_mult * b.atr) then
      { s with equity := s.equity + s.position * (b.close - s.entry_price),
               trades := s.trades ++ [s.position * (b.close - s.entry_price)],
               position := 0,
               trail_stop := max s.trail_stop (b.close - atr_mult * b.atr) }
    else
      { s with trail_stop := max s.trail_stop (b.close - atr_mult * b.atr) }
  else if s.position < 0 then
    if min s.trail_stop (b.close + atr_mult * b.atr) ≤ b.close then
      { s with equity := s.equity + s.position * (b.close - s.entry_price),
               trades := s.trades ++ [s.position * (b.close - s.entry_price)],
               position := 0,
               trail_stop := min s.trail_stop (b.close + atr_mult * b.atr) }
    else
      { s with trail_stop := min s.trail_stop (b.close + atr_mult * b.atr) }
  else s

/-- One iteration of the backtest loop: the entry/reversal section
followed by the trailing-stop section (they are consecutive statements
in the source, not an if/else). -/
def stepBasso (risk_pct atr_mult : ℚ) (s : EngineState) (b : EBar) :
    EngineState :=
  trailStep atr_mult (entryStep risk_pct atr_mult s b) b

/-- `run_tom_basso_coin_toss` of the trailing-stop script: fold the
loop body over the bars.  The Python function returns
`(equity, len(trades), mean(trades))`; the final state carries the
equity and the full trade log those are computed from. -/
def run_tom_basso_coin_toss (initial_capital risk_pct atr_mult : ℚ)
    (bars : List EBar) : EngineState :=
  List.foldl (stepBasso risk_pct atr_mult) (initState initial_capital) bars

/-- Loop of the plot-variant engine, also returning the equity value
appended to `equity_curve` after each bar. -/
def runPlotAux (risk_pct atr_mult : ℚ) (s : EngineState) :
    List EBar → EngineState × List ℚ
  | [] => (s, [])
  | b :: rest =>
      ((runPlotAux risk_pct atr_mult (stepBasso risk_pct atr_mult s b) rest).1,
       (stepBasso risk_pct atr_mult s b).equity ::
         (runPlotAux risk_pct atr_mult (stepBasso risk_pct atr_mult s b) rest).2)

/-- `run_tom_basso_coin_toss` of the plot script: identical loop body,
but `equity_curve` starts as `[initial_capital]` and the current
equity is appended after every bar; returns
`(equity_curve, trades)`. -/
def run_tom_basso_coin_toss_plot (initial_capital risk_pct atr_mult : ℚ)
    (bars : List EBar) : List ℚ × List ℚ :=
  (initial_capital :: (runPlotAux risk_pct atr_mult (initState initial_capital) bars).2,
   (runPlotAux risk_pct atr_mult (initState initial_capital) bars).1.trades)

/-- The condition under which the source's entry section evaluates
`risk_amount / stop_distance` with a zero divisor: one of the two
entry branches fires and `stop_distance = atr_mult * atr` is zero.
(Read off the control flow of lines 77–90 of the trailing-stop
script; the division itself carries no guard.) -/
def entryDividesByZero (atr_mult : ℚ) (s : EngineState) (b : EBar) : Prop :=
  ((b.signal = 2 ∧ s.position ≤ 0) ∨ (b.signal = 1 ∧ 0 ≤ s.position)) ∧
    atr_mult * b.atr = 0

instance (atr_mult : ℚ) (s : EngineState) (b : EBar) :
    Decidable (entryDividesByZero atr_mult s b) := by
  unfold entryDividesByZero
  infer_instance

/-- One input row of the fixed-notional baseline
(`run_random_backtest` reads only `Close` and `TotalSignal`). -/
structure RBar where
  close : ℚ
  signal : ℕ
deriving DecidableEq

/-- Mutable loop state of `run_random_backtest`. -/
structure RState where
  equity : ℚ
  position : ℚ
  entry_price : ℚ
  trades : List ℚ
deriving DecidableEq

/-- Loop body of `run_random_backtest`: `if signal == 2 and position
== 0:` open `position = 100 / price`; `elif signal == 1 and position >
0:` book `pnl = position * (price - entry_price)` and flatten. -/
def stepRandom (s : RState) (b : RBar) : RState :=
  if b.signal = 2 ∧ s.position = 0 then
    { s with position := 100 / b.close, entry_price := b.close }
  else if b.signal = 1 ∧ 0 < s.position then
    { s with equity := s.equity + s.position * (b.close - s.entry_price),
             trades := s.trades ++ [s.position * (b.close - s.entry_price)],
             position := 0 }
  else s

/-- `run_random_backtest` of `tom_basso_simplified_v2.py`. -/
def run_random_backtest (initial_capital : ℚ) (bars : List RBar) : RState :=
  List.foldl stepRandom (RState.mk initial_capital 0 0 []) bars

/-- Bars of the spec's simple long round-trip scenario: closes
`[100, 105, 95]`, ATR 2 on every bar, a LONG (2) signal on every
bar. -/
def c7bars : List EBar :=
  [EBar.mk 100 2 2, EBar.mk 105 2 2, EBar.mk 95 2 2]

/-- Full signal sequence produced by the preprocessing pass (the
`TotalSignal` column before `dropna`). -/
def signalSequence (sigs : ℕ → ℕ) (L : ℕ) (bars : List Bar) : List ℕ :=
  (add_total_signal sigs (add_atr L bars)).map Row.signal

lemma entryStep_equity (risk_pct atr_mult : ℚ) (s : EngineState) (b : EBar) :
    (entryStep risk_pct atr_mult s b).equity = s.equity := by
  unfold entryStep
  split_ifs <;> rfl

lemma entryStep_trades (risk_pct atr_mult : ℚ) (s : EngineState) (b : EBar) :
    (entryStep risk_pct atr_mult s b).trades = s.trades := by
  unfold entryStep
  split_ifs <;> rfl

lemma stepBasso_conservation (risk_pct atr_mult : ℚ) (s : EngineState)
    (b : EBar) :
    (stepBasso risk_pct atr_mult s b).equity
        - ((stepBasso risk_pct atr_mult s b).trades).sum
      = s.equity - (s.trades).sum := by
  unfold stepBasso trailStep
  split_ifs <;>
    simp [entryStep_equity, entryStep_trades, List.sum_append] <;> ring

lemma run_conservation (risk_pct atr_mult : ℚ) (bars : List EBar) :
    ∀ s : EngineState,
      (List.foldl (stepBasso risk_pct atr_mult) s bars).equity
          - ((List.foldl (stepBasso risk_pct atr_mult) s bars).trades).sum
        = s.equity - (s.trades).sum := by
  induction bars with
  | nil => intro s; rfl
  | cons b rest ih =>
      intro s
      rw [List.foldl_cons, ih, stepBasso_conservation]

lemma runPlotAux_fst (risk_pct atr_mult : ℚ) (bars : List EBar) :
    ∀ s : EngineState,
      (runPlotAux risk_pct atr_mult s bars).1
        = List.foldl (stepBasso risk_pct atr_mult) s bars := by
  induction bars with
  | nil => intro s; rfl
  | cons b rest ih =>
      intro s
      simp only [runPlotAux]
      rw [List.foldl_cons]
      exact ih _

/-- Claim C4: for every bar series and signal sequence, the final
equity of the trailing-stop engine equals the initial capital plus the
sum of the recorded trade log (exact rational arithmetic); moreover the
trade log agrees with the one returned by the plot variant's engine on
the same inputs. -/
theorem C4 (initial_capital risk_pct atr_mult : ℚ) (bars : List EBar) :
    (run_tom_basso_coin_toss initial_capital risk_pct atr_mult bars).equity
        = initial_capital
          + ((run_tom_basso_coin_toss initial_capital risk_pct atr_mult
              bars).trades).sum ∧
    (run_tom_basso_coin_toss initial_capital risk_pct atr_mult bars).trades
        = (run_tom_basso_coin_toss_plot initial_capital risk_pct atr_mult
            bars).2 := by
  constructor
  · have h := run_conservation risk_pct atr_mult bars (initState initial_capital)
    simp only [initState, List.sum_nil] at h
    unfold run_tom_basso_coin_toss
    unfold initState
    linarith
  · unfold run_tom_basso_coin_toss run_tom_basso_coin_toss_plot
    rw [runPlotAux_fst]

/-- Claim C7: on closes `[100, 105, 95]` with ATR 2, multiplier 3
(stop distance 6) and a LONG signal on every bar, the engine opens a
long of `100/6` shares at 100 with initial trail stop 94, ratchets the
stop to 99 at close 105, and exits at close 95 ≤ 99 with realized
P&L `100/6 × (95 − 100)`, leaving the final equity below the initial
by five times the position size. -/
theorem C7 :
    (run_tom_basso_coin_toss 10000 (1/100) 3 (List.take 1 c7bars))
        = EngineState.mk 10000 (100/6) 100 94 [] ∧
    (run_tom_basso_coin_toss 10000 (1/100) 3 (List.take 2 c7bars))
        = EngineState.mk 10000 (100/6) 100 99 [] ∧
    (run_tom_basso_coin_toss 10000 (1/100) 3 c7bars)
        = EngineState.mk (10000 - 5 * (100/6)) 0 100 99
            [100/6 * (95 - 100)] := by
  refine ⟨?_, ?_, ?_⟩ <;> with_unfolding_all rfl

/-- Claim C8: the signal draws are modeled as an explicit stream `sigs`
(the successive values of the seedable process-global numpy generator
that `total_signal` consumes), so the produced signal sequence and the
backtest's trade log are functions of the stream and the bar series
alone: two runs from the same seeded stream and the same bars are
identical. -/
theorem C8 (sigs1 sigs2 : ℕ → ℕ) (L : ℕ) (bars1 bars2 : List Bar)
    (initial_capital risk_pct atr_mult : ℚ)
    (hs : sigs1 = sigs2) (hbars : bars1 = bars2) :
    signalSequence sigs1 L bars1 = signalSequence sigs2 L bars2 ∧
    (run_tom_basso_coin_toss initial_capital risk_pct atr_mult
        (engineInput (dropna (add_total_signal sigs1 (add_atr L bars1))))).trades
      = (run_tom_basso_coin_toss initial_capital risk_pct atr_mult
          (engineInput (dropna (add_total_signal sigs2 (add_atr L bars2))))).trades := by
  subst hs
  subst hbars
  exact ⟨rfl, rfl⟩

/-- Concrete instantiation of `C8`: both runs on the all-LONG stream
over a one-bar series coincide. -/
theorem C8_witness :
    signalSequence (fun k => 2) 10 [Bar.mk 101 99 100]
        = signalSequence (fun k => 2) 10 [Bar.mk 101 99 100] ∧
    (run_tom_basso_coin_toss 10000 (1/100) 3
        (engineInput (dropna (add_total_signal (fun k => 2)
          (add_atr 10 [Bar.mk 101 99 100]))))).trades
      = (run_tom_basso_coin_toss 10000 (1/100) 3
          (engineInput (dropna (add_total_signal (fun k => 2)
            (add_atr 10 [Bar.mk 101 99 100]))))).trades :=
  C8 (fun k => 2) (fun k => 2) 10 [Bar.mk 101 99 100] [Bar.mk 101 99 100]
    10000 (1/100) 3 rfl rfl

lemma trailStep_position_cases (atr_mult : ℚ) (s : EngineState) (b : EBar) :
    (trailStep atr_mult s b).position = 0 ∨
      (trailStep atr_mult s b).position = s.position := by
  unfold trailStep
  split_ifs <;> simp

lemma trailStep_exit_long (atr_mult : ℚ) (s : EngineState) (b : EBar)
    (h : 0 < s.position) (hts : s.trail_stop = b.close + atr_mult * b.atr) :
    (trailStep atr_mult s b).position = 0 := by
  have hc : b.close ≤ max s.trail_stop (b.close - atr_mult * b.atr) := by
    rw [hts]
    rcases le_total 0 (atr_mult * b.atr) with hd | hd
    · exact le_max_of_le_left (by linarith)
    · exact le_max_of_le_right (by linarith)
  unfold trailStep
  rw [if_pos h, if_pos hc]

lemma trailStep_exit_short (atr_mult : ℚ) (s : EngineState) (b : EBar)
    (h : s.position < 0) (hts : s.trail_stop = b.close - atr_mult * b.atr) :
    (trailStep atr_mult s b).position = 0 := by
  have hnot : ¬ 0 < s.position := by linarith
  have hc : min s.trail_stop (b.close + atr_mult * b.atr) ≤ b.close := by
    rw [hts]
    rcases le_total 0 (atr_mult * b.atr) with hd | hd
    · exact min_le_of_left_le (by linarith)
    · exact min_le_of_right_le (by linarith)
  unfold trailStep
  rw [if_neg hnot, if_pos h, if_pos hc]

lemma trailStep_mono_long (atr_mult : ℚ) (s : EngineState) (b : EBar)
    (h : 0 < s.position) (h' : 0 < (trailStep atr_mult s b).position) :
    s.trail_stop ≤ (trailStep atr_mult s b).trail_stop := by
  unfold trailStep at h' ⊢
  rw [if_pos h] at h' ⊢
  by_cases hc : b.close ≤ max s.trail_stop (b.close - atr_mult * b.atr)
  · rw [if_pos hc] at h'
    simp at h'
  · rw [if_neg hc]
    exact le_max_left _ _

lemma trailStep_anti_short (atr_mult : ℚ) (s : EngineState) (b : EBar)
    (h : s.position < 0) (h' : (trailStep atr_mult s b).position < 0) :
    (trailStep atr_mult s b).trail_stop ≤ s.trail_stop := by
  have hnot : ¬ 0 < s.position := by linarith
  unfold trailStep at h' ⊢
  rw [if_neg hnot, if_pos h] at h' ⊢
  by_cases hc : min s.trail_stop (b.close + atr_mult * b.atr) ≤ b.close
  · rw [if_pos hc] at h'
    simp at h'
  · rw [if_neg hc]
    exact min_le_left _ _

/-- Claim C3: the ratchet is monotone — across any bar on which a long
position stays open, `trail_stop` does not decrease, and across any bar
on which a short position stays open, `trail_stop` does not increase
(the stop is updated by `max` while long and by `min` while short). -/
theorem C3 (risk_pct atr_mult : ℚ) (s : EngineState) (b : EBar) :
    (0 < s.position → 0 < (stepBasso risk_pct atr_mult s b).position →
        s.trail_stop ≤ (stepBasso risk_pct atr_mult s b).trail_stop) ∧
    (s.position < 0 → (stepBasso risk_pct atr_mult s b).position < 0 →
        (stepBasso risk_pct atr_mult s b).trail_stop ≤ s.trail_stop) := by
  constructor
  · intro hpos hpos'
    unfold stepBasso at hpos' ⊢
    by_cases hA : b.signal = 2 ∧ s.position ≤ 0
    · exact absurd hA.2 (not_le.mpr hpos)
    by_cases hB : b.signal = 1 ∧ 0 ≤ s.position
    · have hs1 : entryStep risk_pct atr_mult s b
          = { s with
                position := -(risk_pct * s.equity / (atr_mult * b.atr)),
                entry_price := b.close,
                trail_stop := b.close + atr_mult * b.atr } := by
        unfold entryStep
        rw [if_neg hA, if_pos hB]
      rw [hs1] at hpos' ⊢
      rcases trailStep_position_cases atr_mult _ b with h0 | h0
      · rw [h0] at hpos'
        exact absurd hpos' (lt_irrefl 0)
      · rw [h0] at hpos'
        have hz := trailStep_exit_long atr_mult _ b hpos' rfl
        rw [h0] at hz
        exact absurd hz (ne_of_gt hpos')
    · have hs1 : entryStep risk_pct atr_mult s b = s := by
        unfold entryStep
        rw [if_neg hA, if_neg hB]
      rw [hs1] at hpos' ⊢
      exact trailStep_mono_long atr_mult s b hpos hpos'
  · intro hneg hneg'
    unfold stepBasso at hneg' ⊢
    by_cases hA : b.signal = 2 ∧ s.position ≤ 0
    · have hs1 : entryStep risk_pct atr_mult s b
          = { s with
                position := risk_pct * s.equity / (atr_mult * b.atr),
                entry_price := b.close,
                trail_stop := b.close - atr_mult * b.atr } := by
        unfold entryStep
        rw [if_pos hA]
      rw [hs1] at hneg' ⊢
      rcases trailStep_position_cases atr_mult _ b with h0 | h0
      · rw [h0] at hneg'
        exact absurd hneg' (lt_irrefl 0)
      · rw [h0] at hneg'
        have hz := trailStep_exit_short atr_mult _ b hneg' rfl
        rw [h0] at hz
        exact absurd hz (ne_of_lt hneg')
    · by_cases hB : b.signal = 1 ∧ 0 ≤ s.position
      · exact absurd hB.2 (not_le.mpr hneg)
      · have hs1 : entryStep risk_pct atr_mult s b = s := by
          unfold entryStep
          rw [if_neg hA, if_neg hB]
        rw [hs1] at hneg' ⊢
        exact trailStep_anti_short atr_mult s b hneg hneg'

/-- Concrete instantiation of `C3`: a held long at close 105 with ATR 2
ratchets its stop from 94 upward. -/
theorem C3_witness :
    (EngineState.mk 10000 1 100 94 []).trail_stop
      ≤ (stepBasso (1/100) 3 (EngineState.mk 10000 1 100 94 [])
          (EBar.mk 105 2 2)).trail_stop :=
  (C3 (1/100) 3 (EngineState.mk 10000 1 100 94 []) (EBar.mk 105 2 2)).1
    (by with_unfolding_all exact of_decide_eq_true rfl)
    (by with_unfolding_all exact of_decide_eq_true rfl)

lemma stepBasso_entry_no_trade (risk_pct atr_mult : ℚ) (s : EngineState)
    (b : EBar) (hrisk : 0 ≤ risk_pct * s.equity)
    (hsd : 0 < atr_mult * b.atr)
    (hentry : (b.signal = 2 ∧ s.position ≤ 0) ∨
      (b.signal = 1 ∧ 0 ≤ s.position)) :
    (stepBasso risk_pct atr_mult s b).trades = s.trades := by
  have hq : 0 ≤ risk_pct * s.equity / (atr_mult * b.atr) :=
    div_nonneg hrisk hsd.le
  unfold stepBasso
  rcases hentry with hA | hB
  · have hs1 : entryStep risk_pct atr_mult s b
        = { s with
              position := risk_pct * s.equity / (atr_mult * b.atr),
              entry_price := b.close,
              trail_stop := b.close - atr_mult * b.atr } := by
      unfold entryStep
      rw [if_pos hA]
    rw [hs1]
    unfold trailStep
    simp only [max_self, min_self]
    split_ifs <;>
      first
        | rfl
        | (exfalso
           simp only [] at *
           linarith)
  · have hB2 : ¬ (b.signal = 2 ∧ s.position ≤ 0) := by
      intro hA
      rw [hA.1] at hB
      exact absurd hB.1 (by norm_num)
    have hs1 : entryStep risk_pct atr_mult s b
        = { s with
              position := -(risk_pct * s.equity / (atr_mult * b.atr)),
              entry_price := b.close,
              trail_stop := b.close + atr_mult * b.atr } := by
      unfold entryStep
      rw [if_neg hB2, if_pos hB]
    rw [hs1]
    unfold trailStep
    simp only [max_self, min_self]
    split_ifs <;>
      first
        | rfl
        | (exfalso
           simp only [] at *
           linarith)

/-- Claim C10 (amended): a position entered on a bar with positive
stop distance (`atr_mult * atr > 0`) is never stopped out on that same
bar — processing an entry bar appends no trade, so the recorded trade
closes strictly after its entry bar — provided the entry's risk amount
`risk_pct * equity` is nonnegative.  The proviso is needed: with
negative equity the entry sizes a position of the opposite sign whose
stop fires immediately (see `C10_counterexample`). -/
theorem C10 (risk_pct atr_mult : ℚ) (s : EngineState) (b : EBar)
    (hrisk : 0 ≤ risk_pct * s.equity) (hsd : 0 < atr_mult * b.atr)
    (hentry : (b.signal = 2 ∧ s.position ≤ 0) ∨
      (b.signal = 1 ∧ 0 ≤ s.position)) :
    (stepBasso risk_pct atr_mult s b).trades = s.trades :=
  stepBasso_entry_no_trade risk_pct atr_mult s b hrisk hsd hentry

/-- Bars refuting claim C10 as stated (run with `risk_pct = 1`): a
SHORT entry at close 100, an adverse bar at close 2000 whose stop exit
loses far more than the risked amount, then a LONG signal at close
100. -/
def c10bars : List EBar :=
  [EBar.mk 100 2 1, EBar.mk 2000 2 1, EBar.mk 100 2 2]

/-- Claim C10 is false as stated: after the catastrophic short loss
the engine is flat with one recorded trade and negative equity; the
final bar is an entry bar (LONG signal while flat) with stop distance
`3 * 2 = 6 > 0`, yet processing it appends a second trade — the entry
sizes a negative position (negative risk amount), whose short-side
stop fires at once, booking a zero-P&L trade on its own entry bar. -/
theorem C10_counterexample :
    (run_tom_basso_coin_toss 10000 1 3 (List.take 2 c10bars)).trades
        = [-9500000/3] ∧
    (run_tom_basso_coin_toss 10000 1 3 (List.take 2 c10bars)).position
        = 0 ∧
    (run_tom_basso_coin_toss 10000 1 3 (List.take 2 c10bars)).equity
        = -9470000/3 ∧
    ((-9470000 : ℚ)/3 < 0) ∧
    0 < 3 * (EBar.mk 100 2 2).atr ∧
    (run_tom_basso_coin_toss 10000 1 3 c10bars).trades
        = [-9500000/3, 0] ∧
    (run_tom_basso_coin_toss 10000 1 3 c10bars).position = 0 := by
  refine ⟨?_, ?_, ?_, ?_, ?_, ?_, ?_⟩
  · with_unfolding_all rfl
  · with_unfolding_all rfl
  · with_unfolding_all rfl
  · norm_num
  · with_unfolding_all exact of_decide_eq_true rfl
  · with_unfolding_all rfl
  · with_unfolding_all rfl

/-- Concrete instantiation of `C10`: a fresh long entry at close 100
with ATR 2 books no trade on its entry bar. -/
theorem C10_witness :
    (stepBasso (1/100) 3 (initState 10000) (EBar.mk 100 2 2)).trades
      = (initState 10000).trades :=
  C10 (1/100) 3 (initState 10000) (EBar.mk 100 2 2)
    (by with_unfolding_all exact of_decide_eq_true rfl)
    (by with_unfolding_all exact of_decide_eq_true rfl)
    (by with_unfolding_all exact of_decide_eq_true rfl)

lemma stepBasso_trades_shape (risk_pct atr_mult : ℚ) (s : EngineState)
    (b : EBar) :
    ((stepBasso risk_pct atr_mult s b).trades = s.trades ∧
        (stepBasso risk_pct atr_mult s b).equity = s.equity) ∨
    (∃ pnl, (stepBasso risk_pct atr_mult s b).trades = s.trades ++ [pnl] ∧
        (stepBasso risk_pct atr_mult s b).equity = s.equity + pnl ∧
        (stepBasso risk_pct atr_mult s b).position = 0) := by
  have he := entryStep_equity risk_pct atr_mult s b
  have ht := entryStep_trades risk_pct atr_mult s b
  unfold stepBasso trailStep
  split_ifs <;>
    first
      | (left
         refine ⟨?_, ?_⟩ <;> simp [he, ht]
         done)
      | (right
         refine ⟨(entryStep risk_pct atr_mult s b).position *
             (b.close - (entryStep risk_pct atr_mult s b).entry_price),
           ?_, ?_, ?_⟩ <;> simp [he, ht]
         done)

/-- Claim C2 (amended): equity changes exactly when a trade is
appended; a stop-triggered exit — the close crossing the ratcheted
stop of the position open after the entry section — does append the
trade `position * (close - entry_price)` of that position, adds the
same amount to equity and flattens; but a reversal books no trade: an
entry signal against an open position with positive stop distance and
nonnegative risk amount overwrites the position, leaving the trade
log (hence equity) untouched. -/
theorem C2_amended (risk_pct atr_mult : ℚ) (s : EngineState) (b : EBar) :
    ((stepBasso risk_pct atr_mult s b).trades = s.trades →
        (stepBasso risk_pct atr_mult s b).equity = s.equity) ∧
    ((stepBasso risk_pct atr_mult s b).trades ≠ s.trades →
        ∃ pnl,
          (stepBasso risk_pct atr_mult s b).trades = s.trades ++ [pnl] ∧
          (stepBasso risk_pct atr_mult s b).equity = s.equity + pnl ∧
          (stepBasso risk_pct atr_mult s b).position = 0) ∧
    ((b.signal = 2 ∧ s.position < 0 ∧ 0 < atr_mult * b.atr ∧
        0 ≤ risk_pct * s.equity) →
      (stepBasso risk_pct atr_mult s b).trades = s.trades) ∧
    ((b.signal = 1 ∧ 0 < s.position ∧ 0 < atr_mult * b.atr ∧
        0 ≤ risk_pct * s.equity) →
      (stepBasso risk_pct atr_mult s b).trades = s.trades) ∧
    ((0 < (entryStep risk_pct atr_mult s b).position ∧
        b.close ≤ max (entryStep risk_pct atr_mult s b).trail_stop
          (b.close - atr_mult * b.atr)) →
      (stepBasso risk_pct atr_mult s b).trades
          = s.trades ++ [(entryStep risk_pct atr_mult s b).position *
              (b.close - (entryStep risk_pct atr_mult s b).entry_price)] ∧
      (stepBasso risk_pct atr_mult s b).equity
          = s.equity + (entryStep risk_pct atr_mult s b).position *
              (b.close - (entryStep risk_pct atr_mult s b).entry_price) ∧
      (stepBasso risk_pct atr_mult s b).position = 0) ∧
    (((entryStep risk_pct atr_mult s b).position < 0 ∧
        min (entryStep risk_pct atr_mult s b).trail_stop
          (b.close + atr_mult * b.atr) ≤ b.close) →
      (stepBasso risk_pct atr_mult s b).trades
          = s.trades ++ [(entryStep risk_pct atr_mult s b).position *
              (b.close - (entryStep risk_pct atr_mult s b).entry_price)] ∧
      (stepBasso risk_pct atr_mult s b).equity
          = s.equity + (entryStep risk_pct atr_mult s b).position *
              (b.close - (entryStep risk_pct atr_mult s b).entry_price) ∧
      (stepBasso risk_pct atr_mult s b).position = 0) := by
  refine ⟨?_, ?_, ?_, ?_, ?_, ?_⟩
  · intro h
    rcases stepBasso_trades_shape risk_pct atr_mult s b with ⟨_, hE⟩ | ⟨pnl, hT, _⟩
    · exact hE
    · rw [h] at hT
      have := congrArg List.length hT
      simp at this
  · intro h
    rcases stepBasso_trades_shape risk_pct atr_mult s b with ⟨hT, _⟩ | hx
    · exact absurd hT h
    · exact hx
  · intro h
    exact stepBasso_entry_no_trade risk_pct atr_mult s b h.2.2.2 h.2.2.1
      (Or.inl ⟨h.1, h.2.1.le⟩)
  · intro h
    exact stepBasso_entry_no_trade risk_pct atr_mult s b h.2.2.2 h.2.2.1
      (Or.inr ⟨h.1, h.2.1.le⟩)
  · intro h
    unfold stepBasso trailStep
    rw [if_pos h.1, if_pos h.2]
    refine ⟨?_, ?_, rfl⟩ <;>
      simp [entryStep_equity, entryStep_trades]
  · intro h
    unfold stepBasso trailStep
    rw [if_neg (not_lt.mpr h.1.le), if_pos h.1, if_pos h.2]
    refine ⟨?_, ?_, rfl⟩ <;>
      simp [entryStep_equity, entryStep_trades]

/-- Bars refuting claim C2 as stated: a SHORT entry at close 100
followed by a LONG reversal at close 100, with ATR 2 throughout. -/
def c2bars : List EBar :=
  [EBar.mk 100 2 1, EBar.mk 100 2 2]

/-- Claim C2 is false as stated: on `c2bars` the engine is short after
bar 0 and long after bar 1 — the short position ended by reversal —
yet the trade log stays empty and equity stays 10000: no Trade with
the closed position's P&L is recorded. -/
theorem C2_counterexample :
    (run_tom_basso_coin_toss 10000 (1/100) 3 (List.take 1 c2bars)).position
        < 0 ∧
    0 < (run_tom_basso_coin_toss 10000 (1/100) 3 c2bars).position ∧
    (run_tom_basso_coin_toss 10000 (1/100) 3 c2bars).trades = [] ∧
    (run_tom_basso_coin_toss 10000 (1/100) 3 c2bars).equity = 10000 := by
  refine ⟨?_, ?_, ?_, ?_⟩
  · with_unfolding_all exact of_decide_eq_true rfl
  · with_unfolding_all exact of_decide_eq_true rfl
  · with_unfolding_all rfl
  · with_unfolding_all rfl

/-- Concrete instantiation of `C2_amended`: a LONG reversal against a
held short of one share books no trade. -/
theorem C2_witness :
    (stepBasso (1/100) 3 (EngineState.mk 10000 (-1) 100 106 [])
        (EBar.mk 100 2 2)).trades
      = (EngineState.mk 10000 (-1) 100 106 []).trades :=
  (C2_amended (1/100) 3 (EngineState.mk 10000 (-1) 100 106 [])
      (EBar.mk 100 2 2)).2.2.1
    (by with_unfolding_all exact of_decide_eq_true rfl)

lemma stepRandom_nonneg (s : RState) (b : RBar) (hb : 0 < b.close)
    (h : 0 ≤ s.position) : 0 ≤ (stepRandom s b).position := by
  unfold stepRandom
  split_ifs
  · exact le_of_lt (div_pos (by norm_num) hb)
  · exact le_refl (0 : ℚ)
  · exact h

lemma run_random_nonneg (l : List RBar) (hl : ∀ b ∈ l, 0 < b.close) :
    ∀ s : RState, 0 ≤ s.position →
      0 ≤ (List.foldl stepRandom s l).position := by
  induction l with
  | nil => exact fun s h => h
  | cons b rest ih =>
      intro s h
      rw [List.foldl_cons]
      exact ih (fun x hx => hl x (List.mem_cons_of_mem b hx)) _
        (stepRandom_nonneg s b (hl b (List.mem_cons_self b rest)) h)

/-- Claim C9: the fixed-notional baseline never goes short — its
position is nonnegative at every point of the run (given positive
close prices) — and its loop body behaves branch by branch as read
from the source: a buy opens `100 / price` only from flat, a sell
while flat is a no-op, a buy while non-flat is a no-op, and a sell
while long books the P&L, appends the trade and flattens. -/
theorem C9 (initial_capital : ℚ) (bars : List RBar)
    (hpos : ∀ b ∈ bars, 0 < b.close) :
    (∀ n, 0 ≤ (run_random_backtest initial_capital (bars.take n)).position) ∧
    (∀ (s : RState) (b : RBar),
      ((b.signal = 2 ∧ s.position = 0) →
          (stepRandom s b).position = 100 / b.close ∧
          (stepRandom s b).entry_price = b.close ∧
          (stepRandom s b).equity = s.equity ∧
          (stepRandom s b).trades = s.trades) ∧
      ((b.signal = 2 ∧ s.position ≠ 0) → stepRandom s b = s) ∧
      ((b.signal = 1 ∧ s.position = 0) → stepRandom s b = s) ∧
      ((b.signal = 1 ∧ 0 < s.position) →
          (stepRandom s b).position = 0 ∧
          (stepRandom s b).equity
            = s.equity + s.position * (b.close - s.entry_price) ∧
          (stepRandom s b).trades
            = s.trades ++ [s.position * (b.close - s.entry_price)])) := by
  constructor
  · intro n
    exact run_random_nonneg (bars.take n)
      (fun x hx => hpos x ((List.take_sublist n bars).subset hx))
      (RState.mk initial_capital 0 0 []) (le_refl (0 : ℚ))
  · intro s b
    have h21 : b.signal = 2 → b.signal ≠ 1 := by
      intro h2 h1
      rw [h2] at h1
      exact absurd h1 (by norm_num)
    refine ⟨?_, ?_, ?_, ?_⟩
    · intro h
      unfold stepRandom
      rw [if_pos h]
      exact ⟨rfl, rfl, rfl, rfl⟩
    · intro h
      unfold stepRandom
      rw [if_neg (fun hx => h.2 hx.2), if_neg (fun hx => h21 h.1 hx.1)]
    · intro h
      unfold stepRandom
      rw [if_neg (fun hx => h21 hx.1 h.1),
        if_neg (fun hx => absurd hx.2 (by rw [h.2]; exact lt_irrefl (0 : ℚ)))]
    · intro h
      unfold stepRandom
      rw [if_neg (fun hx => h21 hx.1 h.1), if_pos h]
      exact ⟨rfl, rfl, rfl⟩

/-- Concrete instantiation of `C9`: after one buy bar at close 4 the
baseline's position is nonnegative. -/
theorem C9_witness :
    0 ≤ (run_random_backtest 10000 ([RBar.mk 4 2].take 1)).position :=
  (C9 10000 [RBar.mk 4 2]
      (by with_unfolding_all exact of_decide_eq_true rfl)).1 1

lemma runPlotAux_snd_length (risk_pct atr_mult : ℚ) (bars : List EBar) :
    ∀ s : EngineState, (runPlotAux risk_pct atr_mult s bars).2.length
      = bars.length := by
  induction bars with
  | nil => intro s; rfl
  | cons b rest ih =>
      intro s
      simp only [runPlotAux, List.length_cons]
      rw [ih]

lemma runPlotAux_snd_get (risk_pct atr_mult : ℚ) (bars : List EBar) :
    ∀ (s : EngineState) (i : ℕ), i < bars.length →
      (runPlotAux risk_pct atr_mult s bars).2.get? i
        = some ((List.foldl (stepBasso risk_pct atr_mult) s
            (bars.take (i + 1))).equity) := by
  induction bars with
  | nil => intro s i hi; exact absurd hi (Nat.not_lt_zero i)
  | cons b rest ih =>
      intro s i hi
      cases i with
      | zero => rfl
      | succ i =>
          simp only [runPlotAux, List.get?_cons_succ]
          rw [ih _ i (Nat.lt_of_succ_lt_succ hi)]
          rfl

/-- Claim C5 (amended): the plot engine's equity curve has one more
entry than the bar series: entry 0 is the initial capital (pushed
before the loop), and for each bar `i` the snapshot appended after
processing it sits at index `i + 1` and equals the equity after the
first `i + 1` bars — one snapshot per bar, offset by the leading
initial-capital entry. -/
theorem C5_amended (initial_capital risk_pct atr_mult : ℚ)
    (bars : List EBar) :
    (run_tom_basso_coin_toss_plot initial_capital risk_pct atr_mult
        bars).1.length = bars.length + 1 ∧
    (run_tom_basso_coin_toss_plot initial_capital risk_pct atr_mult
        bars).1.get? 0 = some initial_capital ∧
    ∀ i, i < bars.length →
      (run_tom_basso_coin_toss_plot initial_capital risk_pct atr_mult
          bars).1.get? (i + 1)
        = some ((run_tom_basso_coin_toss initial_capital risk_pct atr_mult
            (bars.take (i + 1))).equity) := by
  refine ⟨?_, rfl, ?_⟩
  · simp only [run_tom_basso_coin_toss_plot, List.length_cons]
    rw [runPlotAux_snd_length]
  · intro i hi
    simp only [run_tom_basso_coin_toss_plot, List.get?_cons_succ]
    rw [runPlotAux_snd_get risk_pct atr_mult bars _ i hi]
    rfl

/-- Claim C5 is false as stated: on the three bars of `c7bars` the
returned curve has four entries, not three — a leading
initial-capital snapshot precedes the per-bar snapshots, so entry
`i` is the equity before bar `i`, not after it (entry 2 is 10000
although the trade on bar 2 moves equity to 10000 − 250/3). -/
theorem C5_counterexample :
    (run_tom_basso_coin_toss_plot 10000 (1/100) 3 c7bars).1.length = 4 ∧
    (run_tom_basso_coin_toss_plot 10000 (1/100) 3 c7bars).1
      = [10000, 10000, 10000, 10000 - 250/3] := by
  constructor
  · rfl
  · with_unfolding_all rfl

/-- Concrete instantiation of `C5_amended`: on `c7bars` the snapshot
at index 1 is the equity after the first bar. -/
theorem C5_witness :
    (run_tom_basso_coin_toss_plot 10000 (1/100) 3 c7bars).1.get? 1
      = some ((run_tom_basso_coin_toss 10000 (1/100) 3
          (c7bars.take 1)).equity) :=
  (C5_amended 10000 (1/100) 3 c7bars).2.2 0 (by decide)

lemma trAux_length : ∀ (l : List Bar) (prev : Bar),
    (trAux prev l).length = l.length := by
  intro l
  induction l with
  | nil => intro prev; rfl
  | cons b rest ih =>
      intro prev
      simp only [trAux, List.length_cons]
      rw [ih]

lemma trueRanges_length (bars : List Bar) :
    (trueRanges bars).length = bars.length := by
  cases bars with
  | nil => rfl
  | cons b rest =>
      simp only [trueRanges, List.length_cons]
      rw [trAux_length]

lemma rollingMean_length (L : ℕ) (xs : List (Option ℚ)) :
    (rollingMean L xs).length = xs.length := by
  simp [rollingMean]

lemma add_atr_length (L : ℕ) (bars : List Bar) :
    (add_atr L bars).length = bars.length := by
  simp [add_atr, rollingMean_length, trueRanges_length]

lemma add_total_signal_from_signals (sigs : ℕ → ℕ) :
    ∀ (l : List (Bar × Option ℚ)) (k : ℕ),
      (add_total_signal_from sigs k l).map Row.signal
        = (List.range l.length).map (fun j => sigs (k + j)) := by
  intro l
  induction l with
  | nil => intro k; rfl
  | cons p rest ih =>
      intro k
      simp only [add_total_signal_from, List.map_cons, List.length_cons]
      have hf : ((fun j => sigs (k + j)) ∘ Nat.succ)
          = fun j => sigs (k + 1 + j) := by
        funext j
        simp only [Function.comp_apply]
        congr 1
        omega
      rw [ih (k + 1), List.range_succ_eq_map, List.map_cons, List.map_map, hf]
      rfl

/-- Claim C6 (amended): signal generation covers every row — the
`TotalSignal` column assigns draw `sigs i` to row `i` for all rows,
including the warm-up rows whose ATR is undefined — while `dropna`
afterwards removes exactly the undefined-ATR rows, so those bars are
excluded from trading but not from signal generation. -/
theorem C6_amended (sigs : ℕ → ℕ) (L : ℕ) (bars : List Bar) :
    (add_total_signal sigs (add_atr L bars)).map Row.signal
        = (List.range bars.length).map sigs ∧
    ∀ r ∈ dropna (add_total_signal sigs (add_atr L bars)),
      r.atr.isSome = true := by
  constructor
  · rw [add_total_signal, add_total_signal_from_signals, add_atr_length]
    have h0 : (fun j => sigs (0 + j)) = sigs := by
      funext j
      rw [Nat.zero_add]
    rw [h0]
  · intro r hr
    exact (List.mem_filter.mp hr).2

/-- Claim C6 is false as stated: with window length 10 a single-bar
frame has undefined ATR, yet `add_total_signal` (which runs before
`dropna`) draws a signal for that bar — the row carries signal 2 —
while `dropna` then removes it from trading. -/
theorem C6_counterexample :
    add_total_signal (fun j => 2) (add_atr 10 [Bar.mk 101 99 100])
        = [Row.mk (Bar.mk 101 99 100) none 2] ∧
    dropna (add_total_signal (fun j => 2) (add_atr 10 [Bar.mk 101 99 100]))
        = [] := by
  constructor <;> with_unfolding_all rfl

/-- Concrete instantiation of `C6_amended`: the surviving row of a
two-bar frame under window length 1 has a defined ATR. -/
theorem C6_witness :
    (Row.mk (Bar.mk 4 3 3) (some 3) 2).atr.isSome = true :=
  (C6_amended (fun j => 2) 1 [Bar.mk 2 1 1, Bar.mk 4 3 3]).2
    (Row.mk (Bar.mk 4 3 3) (some 3) 2)
    (by with_unfolding_all exact of_decide_eq_true rfl)

lemma trAux_pos : ∀ (l : List Bar) (prev : Bar),
    (∀ x ∈ l, x.low < x.high) →
      ∀ o ∈ trAux prev l, ∀ v, o = some v → 0 < v := by
  intro l
  induction l with
  | nil => intro prev _ o ho; exact absurd ho (List.not_mem_nil o)
  | cons b rest ih =>
      intro prev h o ho v hv
      rcases List.mem_cons.mp ho with h1 | h1
      · have hbv := Option.some.inj (h1.symm.trans hv)
        rw [← hbv]
        have hb := h b (List.mem_cons_self b rest)
        calc (0 : ℚ) < b.high - b.low := sub_pos.mpr hb
          _ ≤ trueRangeVal prev b := le_max_left _ _
      · exact ih b (fun x hx => h x (List.mem_cons_of_mem b hx)) o h1 v hv

lemma trueRanges_pos (bars : List Bar)
    (hb : ∀ x ∈ bars, x.low < x.high) :
    ∀ o ∈ trueRanges bars, ∀ v, o = some v → 0 < v := by
  cases bars with
  | nil => intro o ho; exact absurd ho (List.not_mem_nil o)
  | cons b rest =>
      intro o ho v hv
      rcases List.mem_cons.mp ho with h1 | h1
      · rw [h1] at hv
        simp at hv
      · exact trAux_pos rest b (fun x hx => hb x (List.mem_cons_of_mem b hx))
          o h1 v hv

lemma rollingMean_pos (L : ℕ) (hL : 1 ≤ L) (xs : List (Option ℚ))
    (hxs : ∀ o ∈ xs, ∀ v, o = some v → 0 < v) :
    ∀ o ∈ rollingMean L xs, ∀ v, o = some v → 0 < v := by
  intro o ho v hv
  unfold rollingMean at ho
  rw [List.mem_map] at ho
  obtain ⟨i, hi, hoi⟩ := ho
  rw [List.mem_range] at hi
  rw [← hoi] at hv
  by_cases h1 : i + 1 < L
  · rw [if_pos h1] at hv
    simp at hv
  rw [if_neg h1] at hv
  by_cases h2 : ((xs.drop (i + 1 - L)).take L).all (fun u => u.isSome)
  · rw [if_pos h2] at hv
    have hv' := Option.some.inj hv
    rw [← hv']
    apply div_pos
    · apply List.sum_pos
      · intro a ha
        rw [List.mem_filterMap] at ha
        obtain ⟨o', ho', hid⟩ := ha
        have ho'' : o' ∈ xs :=
          (List.drop_sublist _ _).subset ((List.take_sublist _ _).subset ho')
        exact hxs o' ho'' a hid
      · have hlen : ((xs.drop (i + 1 - L)).take L).length = L := by
          rw [List.length_take, List.length_drop]
          omega
        have hne : (xs.drop (i + 1 - L)).take L ≠ [] := by
          rw [← List.length_pos, hlen]
          omega
        obtain ⟨o', ho'⟩ := List.exists_mem_of_ne_nil _ hne
        have hsome := List.all_eq_true.mp h2 o' ho'
        obtain ⟨a, ha⟩ := Option.isSome_iff_exists.mp hsome
        exact List.ne_nil_of_mem
          (List.mem_filterMap.mpr ⟨o', ho', by rw [ha]; rfl⟩)
    · exact_mod_cast Nat.lt_of_lt_of_le Nat.zero_lt_one hL
  · rw [if_neg h2] at hv
    simp at hv

lemma add_total_signal_from_mem (sigs : ℕ → ℕ) :
    ∀ (l : List (Bar × Option ℚ)) (k : ℕ) (r : Row),
      r ∈ add_total_signal_from sigs k l → ∃ p ∈ l, r.atr = p.2 := by
  intro l
  induction l with
  | nil => intro k r hr; exact absurd hr (List.not_mem_nil r)
  | cons p rest ih =>
      intro k r hr
      rcases List.mem_cons.mp hr with h1 | h1
      · exact ⟨p, List.mem_cons_self p rest, by rw [h1]⟩
      · obtain ⟨q, hq, hq2⟩ := ih (k + 1) r h1
        exact ⟨q, List.mem_cons_of_mem p hq, hq2⟩

lemma pipeline_atr_pos (L : ℕ) (hL : 1 ≤ L) (bars : List Bar)
    (hb : ∀ x ∈ bars, x.low < x.high) (sigs : ℕ → ℕ) :
    ∀ e ∈ engineInput (dropna (add_total_signal sigs (add_atr L bars))),
      0 < e.atr := by
  intro e he
  unfold engineInput at he
  rw [List.mem_filterMap] at he
  obtain ⟨r, hr, hre⟩ := he
  rw [Option.map_eq_some'] at hre
  obtain ⟨a, ha, hae⟩ := hre
  have hea : e.atr = a := by rw [← hae]
  have hr' : r ∈ add_total_signal sigs (add_atr L bars) :=
    (List.mem_filter.mp hr).1
  obtain ⟨p, hp, hp2⟩ := add_total_signal_from_mem sigs (add_atr L bars) 0 r hr'
  have hmem : p.2 ∈ rollingMean L (trueRanges bars) := by
    have := List.of_mem_zip (by exact hp)
    exact this.2
  have hpa : p.2 = some a := by rw [← hp2, ha]
  rw [hea]
  exact rollingMean_pos L hL (trueRanges bars) (trueRanges_pos bars hb)
    p.2 hmem a hpa

/-- Claim C1 (amended): the entry section carries no zero-stop-distance
guard — `entryDividesByZero` records exactly when the source would
evaluate `risk_amount / stop_distance` with a zero divisor — but for
every frame produced by the scripts' own pipeline (degenerate
`High == Low` bars filtered out, undefined-ATR rows dropped) every
engine-input ATR is strictly positive, so with a positive multiplier
the division is never performed with a zero divisor in any reachable
state. -/
theorem C1_amended (L : ℕ) (hL : 1 ≤ L) (atr_mult : ℚ)
    (ham : 0 < atr_mult) (bars : List Bar)
    (hb : ∀ x ∈ bars, x.low < x.high) (sigs : ℕ → ℕ) :
    (∀ e ∈ engineInput (dropna (add_total_signal sigs (add_atr L bars))),
        0 < e.atr) ∧
    (∀ (s : EngineState) (e : EBar), 0 < e.atr →
        ¬ entryDividesByZero atr_mult s e) := by
  constructor
  · exact pipeline_atr_pos L hL bars hb sigs
  · intro s e he hdz
    exact absurd hdz.2 (ne_of_gt (mul_pos ham he))

/-- Claim C1 is false as stated: fed a bar with ATR 0 and a LONG
signal while flat, the entry section fires — the division
`risk_amount / stop_distance` is evaluated with the zero divisor
`3 * 0` (`entryDividesByZero` holds) and the entry is not skipped:
the bar's close overwrites `entry_price` and `trail_stop`. -/
theorem C1_counterexample :
    entryDividesByZero 3 (initState 10000) (EBar.mk 100 0 2) ∧
    (run_tom_basso_coin_toss 10000 (1/100) 3 [EBar.mk 100 0 2]).entry_price
        = 100 ∧
    (run_tom_basso_coin_toss 10000 (1/100) 3 [EBar.mk 100 0 2]).trail_stop
        = 100 := by
  refine ⟨⟨Or.inl ⟨rfl, le_refl (0 : ℚ)⟩, ?_⟩, ?_, ?_⟩
  · with_unfolding_all rfl
  · with_unfolding_all rfl
  · with_unfolding_all rfl

/-- Concrete instantiation of `C1_amended`: on a two-bar non-degenerate
frame with window length 1, the surviving engine bar has positive ATR
and no state divides by zero on it. -/
theorem C1_witness :
    0 < (EBar.mk 3 3 2).atr ∧
    ¬ entryDividesByZero 3 (initState 10000) (EBar.mk 3 3 2) := by
  constructor
  · exact (C1_amended 1 (le_refl 1) 3 (by norm_num)
      [Bar.mk 2 1 1, Bar.mk 4 3 3]
      (by with_unfolding_all exact of_decide_eq_true rfl) (fun j => 2)).1
      (EBar.mk 3 3 2)
      (by with_unfolding_all exact of_decide_eq_true rfl)
  · exact (C1_amended 1 (le_refl 1) 3 (by norm_num)
      [Bar.mk 2 1 1, Bar.mk 4 3 3]
      (by with_unfolding_all exact of_decide_eq_true rfl) (fun j => 2)).2
      (initState 10000) (EBar.mk 3 3 2)
      (by with_unfolding_all exact of_decide_eq_true rfl)
